import Mathlib

/-!
Shallow embedding of akb/logmap (src/logmap.go): a Go HTTP server that
computes the logistic-map time series for a growth rate, its discrete
Fourier transform (real parts only), and serves both as JSON (`/`) or as
an HTML chart page (`/chart`).

Modelling conventions:
* Go `float64` arithmetic is embedded as real-number (`ℝ`) arithmetic;
  IEEE rounding, overflow to infinity and NaN propagation are not modelled.
  Constants such as `0.1` denote their exact real values.
* `[100]float64` arrays are embedded as lists whose length is proved to
  be 100 (the loops of the source build them element by element).
* The third-party `fft.FFT` / `fft.IFFT` (github.com/mjibson/go-dsp/fft)
  are not part of the repository; they are modelled from the spec as the
  standard unnormalized forward DFT (negative exponent, natural bin order)
  and the 1/N-scaled inverse DFT.
* `strconv.ParseFloat` (Go standard library, also not in the repository)
  is modelled from its documented contract as a computable parser into an
  exact-rational value domain `GoFloat` (finite rationals plus the
  infinity/NaN spellings); rounding to the nearest double is not modelled,
  but the accept/reject behaviour (syntax errors and the out-of-range
  error) is.
* The HTTP layer is modelled per request: a request is a method string and
  a parsed query (association list of key/value pairs, as Go's
  `url.Values` with first-value semantics for `Get`); a response records
  the status code, the `Content-Type` and `Allow` headers, and an abstract
  body describing what was written.
-/

namespace Logmap

open Complex

/-! ### Constants (src/logmap.go lines 17-22) -/

/-- Constant `Iterations = 100` from src/logmap.go line 19. -/
def Iterations : ℕ := 100

/-- Constant `Start = 0.1` from src/logmap.go line 20 (seed of the recurrence). -/
noncomputable def Start : ℝ := 0.1

/-- Constant `DefaultRate = "3.5"` from src/logmap.go line 21. -/
def DefaultRate : String := "3.5"

/-! ### The logistic map (src/logmap.go lines 196-205) -/

/-- The loop body of `logisticMap` (src/logmap.go lines 200-203): starting
from state `x`, perform `n` steps `x := rate * x * (1 - x)`, recording each
new state. -/
noncomputable def logisticMapAux (rate : ℝ) : ℝ → ℕ → List ℝ
  | _, 0 => []
  | x, n + 1 =>
    let x' := rate * x * (1 - x)
    x' :: logisticMapAux rate x' n

/-- `logisticMap` from src/logmap.go lines 197-205: generates the logistic
map series for the given growth rate, iterating `Iterations` times from
seed `Start`. -/
noncomputable def logisticMap (rate : ℝ) : List ℝ :=
  logisticMapAux rate Start Iterations

/-- The mathematical orbit of the logistic recurrence: `orbit r 0 = Start`
and `orbit r (n+1) = r * orbit r n * (1 - orbit r n)`.  Used to state what
the loop of `logisticMap` computes. -/
noncomputable def orbit (rate : ℝ) : ℕ → ℝ
  | 0 => Start
  | n + 1 => rate * orbit rate n * (1 - orbit rate n)

/-! ### The discrete Fourier transform (src/logmap.go lines 207-226) -/

/-- Modelled from the spec: `fft.FFT` (github.com/mjibson/go-dsp/fft) is a
third-party dependency absent from the repository; the spec describes it as
"a standard forward discrete Fourier transform (no windowing, no
normalization factor applied beyond the transform's native definition,
natural/non-shifted bin ordering)": bin `k` of a length-`N` input is
`∑ n < N, x n · e^(-2πi·k·n/N)`. -/
noncomputable def dft (N : ℕ) (x : ℕ → ℂ) : ℕ → ℂ :=
  fun k => ∑ n ∈ Finset.range N,
    x n * Complex.exp (-(2 * Real.pi * Complex.I) * k * n / N)

/-- Modelled from the spec: the inverse discrete Fourier transform matching
`dft` (positive exponent, scaled by `1/N`), used to state the round-trip
property the spec asserts of the underlying transform. -/
noncomputable def idft (N : ℕ) (X : ℕ → ℂ) : ℕ → ℂ :=
  fun n => (∑ k ∈ Finset.range N,
    X k * Complex.exp ((2 * Real.pi * Complex.I) * k * n / N)) / N

/-- The call `fft.FFT(input)` as the source performs it on a slice: the
output has the input's length, and bin `k` holds the `dft` coefficient `k`
(out-of-range reads of the input, which the transform never performs, are
defaulted to `0`). -/
noncomputable def fftList (x : List ℂ) : List ℂ :=
  (List.range x.length).map (dft x.length fun n => x.getD n 0)

/-- The inverse call `fft.IFFT` of the same library (modelled from the spec:
1/N-scaled inverse transform), used for the round-trip property. -/
noncomputable def ifftList (X : List ℂ) : List ℂ :=
  (List.range X.length).map (idft X.length fun k => X.getD k 0)

/-- `frequencyTransform` from src/logmap.go lines 209-226: convert the real
series to complex numbers with no imaginary component (`cmplx.Rect(s, 0)`),
outsource the transform to the fft library, and strip the imaginary
component of each coefficient. -/
noncomputable def frequencyTransform (series : List ℝ) : List ℝ :=
  let input := series.map Complex.ofReal
  let frequencies := fftList input
  frequencies.map Complex.re

/-- Following the spec's words (§4.2): lift the length-100 real series to a
complex sequence with zero imaginary parts, apply the standard forward DFT,
and return the real parts of the 100 resulting coefficients. -/
noncomputable def specTransform (series : List ℝ) : List ℝ :=
  (List.range Iterations).map fun k : ℕ =>
    (∑ n ∈ Finset.range Iterations, Complex.ofReal (series.getD n 0)
        * Complex.exp (-(2 * Real.pi * Complex.I) * (k : ℂ) * (n : ℂ)
            / (Iterations : ℂ))).re

/-! ### Go's `strconv.ParseFloat` (modelled from the spec / Go documentation)

The repository calls `strconv.ParseFloat(s, 64)` (src/logmap.go line 193),
which is Go standard-library code absent from the repository.  The model
below follows its documented behaviour: an optional sign followed by the
case-insensitive specials `inf`, `infinity` or `nan`; otherwise a decimal
or hexadecimal floating-point literal (hexadecimal mantissas require a
`p` exponent), with underscores permitted only as Go digit separators;
a well-formed literal whose value overflows the double range is a range
error (rejected with `ErrRange`), and anything else ill-formed is a syntax
error.  Finite values are kept as exact rationals. -/

/-- The result domain of the modelled `strconv.ParseFloat`. -/
inductive GoFloat where
  | finite (val : ℚ)
  | posInf
  | negInf
  | nan
  deriving DecidableEq

/-- Whether a parsed value is a finite double (as opposed to the
infinity/NaN specials). -/
def GoFloat.isFinite : GoFloat → Bool
  | .finite _ => true
  | _ => false

/-- ASCII lower-casing as Go's `lower(c)` does for letters. -/
def lowerChar (c : Char) : Char :=
  if 'A' ≤ c ∧ c ≤ 'Z' then Char.ofNat (c.toNat + 32) else c

/-- Hexadecimal digit test (`0-9`, `a-f`, `A-F`). -/
def isHexDigitChar (c : Char) : Bool :=
  if c.isDigit ∨ ('a' ≤ lowerChar c ∧ lowerChar c ≤ 'f') then true else false

/-- Value of a hexadecimal digit. -/
def hexVal (c : Char) : ℕ :=
  if c.isDigit then c.toNat - '0'.toNat
  else (lowerChar c).toNat - 'a'.toNat + 10

/-- Value of a decimal digit string. -/
def digitsVal (ds : List Char) : ℕ :=
  ds.foldl (fun acc c => 10 * acc + (c.toNat - '0'.toNat)) 0

/-- Value of a hexadecimal digit string. -/
def hexDigitsVal (ds : List Char) : ℕ :=
  ds.foldl (fun acc c => 16 * acc + hexVal c) 0

/-- The scanning loop of Go's `underscoreOK`: `saw` is `'^'` at the start
of the number, `'0'` after a digit (or the base prefix), `'_'` after an
underscore and `'!'` after anything else; an underscore must be preceded
and followed by a digit. -/
def underscoreLoop (hex : Bool) : List Char → Char → Bool
  | [], saw => saw != '_'
  | c :: rest, saw =>
    if c.isDigit ∨ (hex = true ∧ 'a' ≤ lowerChar c ∧ lowerChar c ≤ 'f') then
      underscoreLoop hex rest '0'
    else if c = '_' then
      if saw = '0' then underscoreLoop hex rest '_' else false
    else if saw = '_' then false
    else underscoreLoop hex rest '!'

/-- Go's `underscoreOK`: underscores may separate successive digits, and
one may follow a base prefix such as `0x`. -/
def underscoreOK (s : List Char) : Bool :=
  let s1 : List Char :=
    match s with
    | c :: rest => if c = '+' ∨ c = '-' then rest else s
    | [] => s
  match s1 with
  | c0 :: c1 :: rest =>
    if c0 = '0' ∧ (lowerChar c1 = 'b' ∨ lowerChar c1 = 'o' ∨ lowerChar c1 = 'x') then
      underscoreLoop (decide (lowerChar c1 = 'x')) rest '0'
    else underscoreLoop false s1 '^'
  | _ => underscoreLoop false s1 '^'

/-- Go's `special`: an optional sign followed by case-insensitive `inf` or
`infinity` (a signed or unsigned infinity), or unsigned case-insensitive
`nan`. -/
def specialVal (cs : List Char) : Option GoFloat :=
  match cs with
  | [] => none
  | c :: rest =>
    if c = '+' then
      if rest.map lowerChar = "inf".data ∨ rest.map lowerChar = "infinity".data
      then some GoFloat.posInf else none
    else if c = '-' then
      if rest.map lowerChar = "inf".data ∨ rest.map lowerChar = "infinity".data
      then some GoFloat.negInf else none
    else
      if cs.map lowerChar = "inf".data ∨ cs.map lowerChar = "infinity".data
      then some GoFloat.posInf
      else if cs.map lowerChar = "nan".data then some GoFloat.nan
      else none

/-- Smallest magnitude at which a parsed decimal value rounds to `2^1024`
and `ParseFloat` reports `ErrRange` (overflow past the largest finite
double, `(2 - 2^-52)·2^1023`). -/
def overflowBound : ℚ := 2 ^ 1024 - 2 ^ 970

/-- Apply the sign and the documented range check: values at or beyond the
double overflow threshold are `ErrRange` errors, everything else is a
finite result. -/
def mkFiniteResult (neg : Bool) (v : ℚ) : Option GoFloat :=
  let v := if neg then -v else v
  if v ≤ -overflowBound ∨ overflowBound ≤ v then none
  else some (GoFloat.finite v)

/-- Exponent part after `e`/`p`: an optional sign and at least one decimal
digit.  Go's `readFloat` saturates gigantic exponents; the clamp at `5000`
mirrors that and never changes accept/reject behaviour (any nonzero
mantissa with a larger exponent is already out of range, and a zero
mantissa is unaffected by the exponent). -/
def expDigits (r : List Char) : Option ℤ :=
  let p : Bool × List Char :=
    match r with
    | '+' :: rr => (false, rr)
    | '-' :: rr => (true, rr)
    | _ => (false, r)
  if p.2 ≠ [] ∧ p.2.all Char.isDigit then
    let ex : ℕ := min (digitsVal p.2) 5000
    some (if p.1 then -(ex : ℤ) else (ex : ℤ))
  else none

/-- Decimal literal after mantissa splitting: at least one digit overall,
an optional `e` exponent, nothing left over. -/
def parseDecTail (neg : Bool) (intPart fracPart rest : List Char) : Option GoFloat :=
  if intPart = [] ∧ fracPart = [] then none
  else
    let mant : ℚ := (digitsVal intPart : ℚ)
      + (digitsVal fracPart : ℚ) / (10 : ℚ) ^ fracPart.length
    match rest with
    | [] => mkFiniteResult neg mant
    | e :: r =>
      if lowerChar e = 'e' then
        match expDigits r with
        | some ex => mkFiniteResult neg (mant * (10 : ℚ) ^ ex)
        | none => none
      else none

/-- Decimal literal: digits, an optional dot with more digits, an optional
exponent. -/
def parseDec (neg : Bool) (s : List Char) : Option GoFloat :=
  let intPart := s.takeWhile Char.isDigit
  let rest1 := s.drop intPart.length
  match rest1 with
  | '.' :: r =>
    let fracPart := r.takeWhile Char.isDigit
    parseDecTail neg intPart fracPart (r.drop fracPart.length)
  | _ => parseDecTail neg intPart [] rest1

/-- Hexadecimal mantissa after the `0x` prefix: hex digits with an optional
dot, and a mandatory binary `p` exponent. -/
def parseHexTail (neg : Bool) (intPart fracPart rest : List Char) : Option GoFloat :=
  if intPart = [] ∧ fracPart = [] then none
  else
    let mant : ℚ := (hexDigitsVal intPart : ℚ)
      + (hexDigitsVal fracPart : ℚ) / (16 : ℚ) ^ fracPart.length
    match rest with
    | [] => none
    | p :: r =>
      if lowerChar p = 'p' then
        match expDigits r with
        | some ex => mkFiniteResult neg (mant * (2 : ℚ) ^ ex)
        | none => none
      else none

/-- Hexadecimal literal body (after the `0x`/`0X` prefix). -/
def parseHex (neg : Bool) (s : List Char) : Option GoFloat :=
  let intPart := s.takeWhile isHexDigitChar
  let rest1 := s.drop intPart.length
  match rest1 with
  | '.' :: r =>
    let fracPart := r.takeWhile isHexDigitChar
    parseHexTail neg intPart fracPart (r.drop fracPart.length)
  | _ => parseHexTail neg intPart [] rest1

/-- Modelled from the spec: Go's `strconv.ParseFloat(s, 64)` with `some`
for a nil error and `none` for a syntax or range error.  The whole string
must be consumed. -/
def parseFloat (s : String) : Option GoFloat :=
  let cs := s.data
  match specialVal cs with
  | some v => some v
  | none =>
    if cs.contains '_' ∧ underscoreOK cs = false then none
    else
      let cs2 := cs.filter fun c => c != '_'
      let sgn : Bool × List Char :=
        match cs2 with
        | '+' :: r => (false, r)
        | '-' :: r => (true, r)
        | _ => (false, cs2)
      match sgn.2 with
      | c0 :: c1 :: rest =>
        if c0 = '0' ∧ (c1 = 'x' ∨ c1 = 'X') then parseHex sgn.1 rest
        else parseDec sgn.1 sgn.2
      | _ => parseDec sgn.1 sgn.2

/-! ### The HTTP layer (src/logmap.go lines 39-194) -/

/-- Go's `url.Values.Get`: the first value associated with the key, or the
empty string when the key is absent.  A query string is modelled as the
ordered key/value pairs it parses to. -/
def queryGet (query : List (String × String)) (key : String) : String :=
  match query.find? fun p => p.1 = key with
  | some p => p.2
  | none => ""

/-- `getRate` from src/logmap.go lines 185-194: read the `rate` query
parameter, substitute `DefaultRate` when it is empty, and parse it;
`none` models the non-nil error that the handlers turn into a 400. -/
def getRate (query : List (String × String)) : Option GoFloat :=
  let rateParam := queryGet query "rate"
  let rateParam := if rateParam = "" then DefaultRate else rateParam
  parseFloat rateParam

/-- What a handler wrote: nothing, the JSON object with the two series,
or the chart page built from the two series and the resolved rate.  A
chart page for a non-finite rate is kept abstract, since its numeric
content is IEEE-propagation the real-number embedding does not model. -/
inductive Body where
  | empty
  | json (time frequency : List ℝ)
  | html (time frequency : List ℝ) (rate : ℚ)
  | htmlNonfinite (rate : GoFloat)

/-- An HTTP response: status code, `Content-Type` header, `Allow` header,
and the body written. -/
structure Response where
  status : ℕ
  contentType : Option String
  allow : Option String
  body : Body

/-- `get` from src/logmap.go lines 63-89: always set the JSON content type;
on a rate-parse error answer 400 with no body; otherwise run the pipeline
and serialize both arrays.  For a non-finite rate every series entry is
non-finite and Go's `json.Marshal` rejects non-finite floats, which the
source surfaces as a 500 with no body; the real-number embedding keeps
that branch abstract. -/
noncomputable def get (query : List (String × String)) : Response :=
  match getRate query with
  | none => ⟨400, some "application/json", none, Body.empty⟩
  | some (GoFloat.finite q) =>
      ⟨200, some "application/json", none,
        Body.json (logisticMap (q : ℝ)) (frequencyTransform (logisticMap (q : ℝ)))⟩
  | some _ => ⟨500, some "application/json", none, Body.empty⟩

/-- `getChart` from src/logmap.go lines 91-183: always set the HTML content
type; on a rate-parse error answer 400 with no body; otherwise render the
chart page from the two series and the resolved rate.  Chart/SVG styling
and the template-execution failure branch (the template is fixed at
startup and executes successfully on this data) are not modelled. -/
noncomputable def getChart (query : List (String × String)) : Response :=
  match getRate query with
  | none => ⟨400, some "text/html", none, Body.empty⟩
  | some (GoFloat.finite q) =>
      ⟨200, some "text/html", none,
        Body.html (logisticMap (q : ℝ)) (frequencyTransform (logisticMap (q : ℝ))) q⟩
  | some gf => ⟨200, some "text/html", none, Body.htmlNonfinite gf⟩

/-- The non-GET branch shared by both routes (src/logmap.go lines 44-47 and
54-57): `Allow: GET` and status 405, nothing written. -/
def methodNotAllowed : Response := ⟨405, none, some "GET", Body.empty⟩

/-- The route registered for `/` (src/logmap.go lines 40-48). -/
noncomputable def serveRoot (method : String) (query : List (String × String)) : Response :=
  if method = "GET" then get query else methodNotAllowed

/-- The route registered for `/chart` (src/logmap.go lines 50-58). -/
noncomputable def serveChart (method : String) (query : List (String × String)) : Response :=
  if method = "GET" then getChart query else methodNotAllowed

/-! ### Theorems: the logistic map -/

lemma logisticMapAux_length (rate x : ℝ) (n : ℕ) :
    (logisticMapAux rate x n).length = n := by
  induction n generalizing x with
  | zero => rfl
  | succ n ih => simp [logisticMapAux, ih]

lemma logisticMap_length (rate : ℝ) : (logisticMap rate).length = Iterations :=
  logisticMapAux_length rate Start Iterations

lemma logisticMapAux_orbit (rate : ℝ) (n k : ℕ) :
    logisticMapAux rate (orbit rate k) n
      = (List.range n).map fun i => orbit rate (k + i + 1) := by
  induction n generalizing k with
  | zero => rfl
  | succ n ih =>
    rw [List.range_succ_eq_map]
    have hstep : rate * orbit rate k * (1 - orbit rate k) = orbit rate (k + 1) := rfl
    simp only [logisticMapAux, hstep, List.map_cons, List.map_map]
    refine List.cons_eq_cons.mpr ⟨rfl, ?_⟩
    rw [ih (k + 1)]
    refine List.map_congr_left fun i _ => ?_
    simp only [Function.comp_apply]
    congr 1
    omega

/-- C1: for every rate `r`, the generated series is exactly the list of
orbit iterates `x(1), …, x(100)` of the recurrence `x(n+1) = r·x(n)·(1-x(n))`
from seed `x0 = 0.1`, in order; in particular the seed itself is never
emitted (entry `n` is iterate `n+1`, never iterate `0`). -/
theorem logisticMap_eq_orbit_iterates (rate : ℝ) :
    logisticMap rate = (List.range Iterations).map fun n => orbit rate (n + 1) := by
  have h := logisticMapAux_orbit rate Iterations 0
  simpa [logisticMap, orbit] using h

lemma logisticStep_mem_Icc {rate x : ℝ} (hr0 : 0 ≤ rate) (hr4 : rate ≤ 4)
    (hx0 : 0 ≤ x) (hx1 : x ≤ 1) : 0 ≤ rate * x * (1 - x) ∧ rate * x * (1 - x) ≤ 1 := by
  constructor
  · have h1 : 0 ≤ 1 - x := by linarith
    positivity
  · nlinarith [sq_nonneg (x - 1 / 2), sq_nonneg x]

lemma logisticMapAux_mem_Icc {rate x : ℝ} (hr0 : 0 ≤ rate) (hr4 : rate ≤ 4)
    (hx0 : 0 ≤ x) (hx1 : x ≤ 1) (n : ℕ) :
    (logisticMapAux rate x n).Forall fun y => 0 ≤ y ∧ y ≤ 1 := by
  induction n generalizing x with
  | zero => simp [logisticMapAux]
  | succ n ih =>
    obtain ⟨h0, h1⟩ := logisticStep_mem_Icc hr0 hr4 hx0 hx1
    simpa [logisticMapAux] using ⟨⟨h0, h1⟩, ih h0 h1⟩

/-- C10: for every rate `r` with `0 ≤ r ≤ 4`, every element of the generated
time series lies in the closed interval `[0, 1]` (the logistic step preserves
membership in `[0, 1]` and the seed `0.1` lies in it). -/
theorem logisticMap_mem_Icc {rate : ℝ} (hr0 : 0 ≤ rate) (hr4 : rate ≤ 4) :
    (logisticMap rate).Forall fun y => 0 ≤ y ∧ y ≤ 1 := by
  have hS0 : (0 : ℝ) ≤ Start := by norm_num [Start]
  have hS1 : Start ≤ 1 := by norm_num [Start]
  exact logisticMapAux_mem_Icc hr0 hr4 hS0 hS1 Iterations

/-- Witness for C10 at the concrete rate `0`. -/
theorem logisticMap_mem_Icc_witness :
    (logisticMap 0).Forall fun y => 0 ≤ y ∧ y ≤ 1 :=
  logisticMap_mem_Icc (le_refl 0) zero_le_four

/-! ### Theorems: the discrete Fourier transform -/

lemma two_pi_I_ne_zero : (2 : ℂ) * Real.pi * Complex.I ≠ 0 :=
  mul_ne_zero (mul_ne_zero two_ne_zero (Complex.ofReal_ne_zero.mpr Real.pi_ne_zero))
    Complex.I_ne_zero

lemma sum_exp_unit_root (N : ℕ) (hN : 0 < N) (d : ℤ) :
    ∑ k ∈ Finset.range N, Complex.exp (2 * Real.pi * Complex.I * d * k / N)
      = if (N : ℤ) ∣ d then (N : ℂ) else 0 := by
  have hNne : (N : ℂ) ≠ 0 := Nat.cast_ne_zero.mpr hN.ne'
  have hterm : ∀ k : ℕ, Complex.exp (2 * Real.pi * Complex.I * d * k / N)
      = Complex.exp (2 * Real.pi * Complex.I * d / N) ^ k := by
    intro k
    rw [← Complex.exp_nat_mul]
    congr 1
    ring
  rw [Finset.sum_congr rfl fun k _ => hterm k]
  by_cases h : (N : ℤ) ∣ d
  · obtain ⟨c, rfl⟩ := h
    have hroot : Complex.exp (2 * Real.pi * Complex.I * ((N : ℤ) * c : ℤ) / N) = 1 := by
      have harg : (2 * (Real.pi : ℂ) * Complex.I * ((N : ℤ) * c : ℤ) / N)
          = (c : ℂ) * (2 * Real.pi * Complex.I) := by
        push_cast
        field_simp
        ring
      rw [harg]
      exact Complex.exp_int_mul_two_pi_mul_I c
    rw [if_pos (dvd_mul_right (N : ℤ) c)]
    rw [Finset.sum_congr rfl fun k _ => by rw [hroot, one_pow]]
    simp
  · have hroot_ne : Complex.exp (2 * Real.pi * Complex.I * d / N) ≠ 1 := by
      intro hc
      rw [Complex.exp_eq_one_iff] at hc
      obtain ⟨m, hm⟩ := hc
      apply h
      have hm' : 2 * (Real.pi : ℂ) * Complex.I * d
          = (m : ℂ) * (2 * Real.pi * Complex.I) * N := by
        have := congrArg (· * (N : ℂ)) hm
        simpa [div_mul_cancel₀, hNne] using this
      have h3 : (2 * (Real.pi : ℂ) * Complex.I) * (d : ℂ)
          = (2 * (Real.pi : ℂ) * Complex.I) * ((m : ℂ) * N) := by
        linear_combination hm'
      have h4 : (d : ℂ) = (m : ℂ) * N := mul_left_cancel₀ two_pi_I_ne_zero h3
      have h5 : d = m * (N : ℤ) := by exact_mod_cast h4
      exact ⟨m, by rw [h5, mul_comm]⟩
    rw [geom_sum_eq hroot_ne]
    have hpow : Complex.exp (2 * Real.pi * Complex.I * d / N) ^ N = 1 := by
      rw [← Complex.exp_nat_mul]
      have harg : (N : ℂ) * (2 * Real.pi * Complex.I * d / N)
          = (d : ℂ) * (2 * Real.pi * Complex.I) := by
        field_simp
        ring
      rw [harg]
      exact Complex.exp_int_mul_two_pi_mul_I d
    simp [hpow, h]

/-- Fourier inversion for the modelled transform: `idft` undoes `dft` on
every index below the transform length. -/
theorem idft_dft (N : ℕ) (x : ℕ → ℂ) (n : ℕ) (hn : n < N) :
    idft N (dft N x) n = x n := by
  have hN : 0 < N := lt_of_le_of_lt (Nat.zero_le n) hn
  have hNne : (N : ℂ) ≠ 0 := Nat.cast_ne_zero.mpr hN.ne'
  unfold idft dft
  simp only [Finset.sum_mul]
  rw [Finset.sum_comm]
  have hinner : ∀ m ∈ Finset.range N,
      (∑ k ∈ Finset.range N,
        x m * Complex.exp (-(2 * Real.pi * Complex.I) * k * m / N)
          * Complex.exp (2 * Real.pi * Complex.I * k * n / N))
        = x m * if m = n then (N : ℂ) else 0 := by
    intro m hm
    have hmN : m < N := Finset.mem_range.mp hm
    have hcomb : ∀ k : ℕ,
        x m * Complex.exp (-(2 * Real.pi * Complex.I) * k * m / N)
          * Complex.exp (2 * Real.pi * Complex.I * k * n / N)
        = x m * Complex.exp (2 * Real.pi * Complex.I
            * (((n : ℤ) - (m : ℤ) : ℤ) : ℂ) * k / N) := by
      intro k
      rw [mul_assoc, ← Complex.exp_add]
      congr 2
      push_cast
      ring
    rw [Finset.sum_congr rfl fun k _ => hcomb k, ← Finset.mul_sum]
    rw [sum_exp_unit_root N hN ((n : ℤ) - (m : ℤ))]
    have hiff : ((N : ℤ) ∣ (n : ℤ) - (m : ℤ)) ↔ m = n := by
      constructor
      · intro hd
        have habs : |(n : ℤ) - (m : ℤ)| < N := abs_lt.mpr (by omega)
        have h0 := Int.eq_zero_of_abs_lt_dvd hd habs
        omega
      · rintro rfl
        simp
    rw [if_congr hiff rfl rfl]
  rw [Finset.sum_congr rfl hinner]
  simp only [mul_ite, mul_zero]
  rw [Finset.sum_ite_eq' (Finset.range N) n fun m => x m * (N : ℂ)]
  rw [if_pos (Finset.mem_range.mpr hn)]
  exact mul_div_cancel_right₀ (x n) hNne

lemma getD_of_lt {α : Type} (l : List α) (n : ℕ) (d : α) (h : n < l.length) :
    l.getD n d = l.get ⟨n, h⟩ := by
  simp [List.getD_eq_getElem?_getD, List.getElem?_eq_getElem h]

lemma fftList_length (x : List ℂ) : (fftList x).length = x.length := by
  simp [fftList]

lemma fftList_getD (x : List ℂ) (k : ℕ) (hk : k < x.length) :
    (fftList x).getD k 0 = dft x.length (fun n => x.getD n 0) k := by
  have hk' : k < (fftList x).length := by rwa [fftList_length]
  rw [getD_of_lt _ _ _ hk']
  simp [fftList]

/-- Round trip of the modelled transform pair on lists: `ifftList` undoes
`fftList` exactly. -/
theorem ifftList_fftList (x : List ℂ) : ifftList (fftList x) = x := by
  apply List.ext_getElem
  · simp [ifftList, fftList]
  intro i h1 h2
  simp only [ifftList, List.getElem_map, List.getElem_range]
  rw [show (fftList x).length = x.length from fftList_length x]
  unfold idft
  show (∑ k ∈ Finset.range x.length,
      (fftList x).getD k 0 * Complex.exp (2 * Real.pi * Complex.I * k * i / x.length))
        / (x.length : ℂ) = x[i]
  have hsum : (∑ k ∈ Finset.range x.length,
      (fftList x).getD k 0 * Complex.exp (2 * Real.pi * Complex.I * k * i / x.length))
      = ∑ k ∈ Finset.range x.length,
        dft x.length (fun n => x.getD n 0) k
          * Complex.exp (2 * Real.pi * Complex.I * k * i / x.length) :=
    Finset.sum_congr rfl fun k hk => by
      rw [fftList_getD x k (Finset.mem_range.mp hk)]
  rw [hsum]
  have h := idft_dft x.length (fun n => x.getD n 0) i h2
  unfold idft at h
  rw [h]
  show x.getD i 0 = x[i]
  rw [getD_of_lt x i 0 h2]
  simp

lemma frequencyTransform_length (series : List ℝ) :
    (frequencyTransform series).length = series.length := by
  simp [frequencyTransform, fftList]

lemma map_ofReal_getD (series : List ℝ) (n : ℕ) (hn : n < series.length) :
    (series.map Complex.ofReal).getD n 0 = Complex.ofReal (series.getD n 0) := by
  have hn' : n < (series.map Complex.ofReal).length := by simpa using hn
  rw [getD_of_lt _ _ _ hn', getD_of_lt _ _ _ hn]
  simp

/-- C2: on every length-100 real input series, `frequencyTransform` returns
exactly the sequence described by the spec: the real parts of the standard
forward DFT (no windowing, no extra normalization, natural bin ordering) of
the zero-imaginary complex lift of the input. -/
theorem frequencyTransform_eq_spec (series : List ℝ)
    (hlen : series.length = Iterations) :
    frequencyTransform series = specTransform series := by
  apply List.ext_getElem
  · simp [frequencyTransform, specTransform, fftList, hlen]
  intro i h1 h2
  simp only [frequencyTransform, fftList, specTransform, List.getElem_map,
    List.getElem_range, List.length_map, List.length_range]
  rw [hlen]
  unfold dft
  congr 1
  refine Finset.sum_congr rfl fun n hn => ?_
  have hn' : n < series.length := hlen ▸ Finset.mem_range.mp hn
  simp only [map_ofReal_getD series n hn']

/-- Witness for C2 at the concrete all-zero series of length 100. -/
theorem frequencyTransform_eq_spec_witness :
    frequencyTransform (List.replicate Iterations (0 : ℝ))
      = specTransform (List.replicate Iterations (0 : ℝ)) :=
  frequencyTransform_eq_spec _ (by simp)

/-- C3: for every rate, transforming the generated time series (lifted to
complex numbers with zero imaginary parts) with the forward DFT and then
applying the inverse DFT to the full complex result reconstructs the
original series exactly in the real-number model (the "within floating-point
tolerance" round trip of the underlying transform). -/
theorem fft_round_trip (rate : ℝ) :
    ifftList (fftList ((logisticMap rate).map Complex.ofReal))
      = (logisticMap rate).map Complex.ofReal :=
  ifftList_fftList _

/-! ### Theorems: the HTTP layer -/

/-- C4: on both endpoints, a present but unparseable `rate` parameter
produces status 400 with an empty body and the numeric pipeline is not
invoked (nothing is written). -/
theorem rateUnparseable_400 (query : List (String × String)) (s : String)
    (hs : queryGet query "rate" = s) (hne : s ≠ "") (hbad : parseFloat s = none) :
    (serveRoot "GET" query).status = 400
      ∧ (serveRoot "GET" query).body = Body.empty
      ∧ (serveChart "GET" query).status = 400
      ∧ (serveChart "GET" query).body = Body.empty := by
  have hrate : getRate query = none := by
    unfold getRate
    rw [hs]
    show parseFloat (if s = "" then DefaultRate else s) = none
    rw [if_neg hne]
    exact hbad
  refine ⟨?_, ?_, ?_, ?_⟩ <;> simp [serveRoot, serveChart, get, getChart, hrate]

/-- Witness for C4 at the concrete query `?rate=abc`. -/
theorem rateUnparseable_400_witness :
    (serveRoot "GET" [("rate", "abc")]).status = 400
      ∧ (serveRoot "GET" [("rate", "abc")]).body = Body.empty
      ∧ (serveChart "GET" [("rate", "abc")]).status = 400
      ∧ (serveChart "GET" [("rate", "abc")]).body = Body.empty :=
  rateUnparseable_400 [("rate", "abc")] "abc" rfl (by decide) (by decide)

/-- The default rate string `3.5` parses to the rational `7/2`.  Proved by
reducing the character-level parse to its mantissa and discharging the
rational arithmetic. -/
lemma parseFloat_default :
    parseFloat DefaultRate = some (GoFloat.finite (7 / 2)) := by
  have hstep : parseFloat DefaultRate
      = mkFiniteResult false ((digitsVal ['3'] : ℚ)
          + (digitsVal ['5'] : ℚ) / (10 : ℚ) ^ (['5'] : List Char).length) := rfl
  have h3 : digitsVal ['3'] = 3 := by decide
  have h5 : digitsVal ['5'] = 5 := by decide
  rw [hstep, h3, h5]
  unfold mkFiniteResult overflowBound
  norm_num

/-- Resolution at the empty query: the default applies. -/
lemma getRate_nil : getRate [] = some (GoFloat.finite (7 / 2)) := by
  have h1 : getRate [] = parseFloat DefaultRate := rfl
  rw [h1, parseFloat_default]

/-- C5: when the `rate` parameter is absent from the query, the resolved
rate is the default `3.5` (`getRate` is the shared resolution used by both
endpoints). -/
theorem absentRate_default (query : List (String × String))
    (habsent : query.find? (fun p => p.1 = "rate") = none) :
    getRate query = some (GoFloat.finite (7 / 2)) := by
  have h1 : getRate query = parseFloat DefaultRate := by
    unfold getRate queryGet
    rw [habsent]
    rfl
  rw [h1, parseFloat_default]

/-- Witness for C5 at the empty query. -/
theorem absentRate_default_witness :
    getRate [] = some (GoFloat.finite (7 / 2)) :=
  absentRate_default [] rfl

/-- C9: a `rate` parameter present with an empty value resolves like an
absent parameter: the default `3.5` is used and both endpoints answer 200
with the default-rate pipeline output rather than 400. -/
theorem emptyRate_default (query : List (String × String))
    (hempty : queryGet query "rate" = "") :
    getRate query = some (GoFloat.finite (7 / 2))
      ∧ serveRoot "GET" query = ⟨200, some "application/json", none,
          Body.json (logisticMap ((7 / 2 : ℚ) : ℝ))
            (frequencyTransform (logisticMap ((7 / 2 : ℚ) : ℝ)))⟩
      ∧ serveChart "GET" query = ⟨200, some "text/html", none,
          Body.html (logisticMap ((7 / 2 : ℚ) : ℝ))
            (frequencyTransform (logisticMap ((7 / 2 : ℚ) : ℝ))) (7 / 2)⟩ := by
  have h1 : getRate query = some (GoFloat.finite (7 / 2)) := by
    have h0 : getRate query = parseFloat DefaultRate := by
      unfold getRate
      rw [hempty]
      rfl
    rw [h0, parseFloat_default]
  refine ⟨h1, ?_, ?_⟩ <;> simp [serveRoot, serveChart, get, getChart, h1]

/-- Witness for C9 at the concrete query `?rate=`. -/
theorem emptyRate_default_witness :
    getRate [("rate", "")] = some (GoFloat.finite (7 / 2))
      ∧ serveRoot "GET" [("rate", "")] = ⟨200, some "application/json", none,
          Body.json (logisticMap ((7 / 2 : ℚ) : ℝ))
            (frequencyTransform (logisticMap ((7 / 2 : ℚ) : ℝ)))⟩
      ∧ serveChart "GET" [("rate", "")] = ⟨200, some "text/html", none,
          Body.html (logisticMap ((7 / 2 : ℚ) : ℝ))
            (frequencyTransform (logisticMap ((7 / 2 : ℚ) : ℝ))) (7 / 2)⟩ :=
  emptyRate_default [("rate", "")] rfl

/-- C8: every non-GET request to either route is answered with status 405
and an `Allow: GET` header. -/
theorem nonGet_405 (method : String) (query : List (String × String))
    (hm : method ≠ "GET") :
    (serveRoot method query).status = 405
      ∧ (serveRoot method query).allow = some "GET"
      ∧ (serveChart method query).status = 405
      ∧ (serveChart method query).allow = some "GET" := by
  refine ⟨?_, ?_, ?_, ?_⟩ <;> simp [serveRoot, serveChart, methodNotAllowed, hm]

/-- Witness for C8 at the concrete method `POST`. -/
theorem nonGet_405_witness :
    (serveRoot "POST" []).status = 405
      ∧ (serveRoot "POST" []).allow = some "GET"
      ∧ (serveChart "POST" []).status = 405
      ∧ (serveChart "POST" []).allow = some "GET" :=
  nonGet_405 "POST" [] (by decide)

/-- C6 fails as stated: the parser accepts strings that do not denote
finite doubles.  At the concrete input `Inf`, rate resolution succeeds and
yields positive infinity, which is not a finite value. -/
theorem rateAccept_counterexample :
    getRate [("rate", "Inf")] = some GoFloat.posInf
      ∧ GoFloat.posInf.isFinite = false :=
  ⟨by decide, by decide⟩

/-- C6 (amended): rate resolution applies Go's `ParseFloat` to the supplied
string and nothing else — a present, non-empty `rate` string is accepted
exactly when the parser succeeds (which includes the non-finite spellings
`inf`, `infinity` and `nan`), and only a parser failure (syntax error or
out-of-range literal) is answered as an input error. -/
theorem rateAccept_iff_parse (query : List (String × String)) (s : String)
    (hs : queryGet query "rate" = s) (hne : s ≠ "") :
    getRate query = parseFloat s
      ∧ ((serveRoot "GET" query).status = 400 ↔ parseFloat s = none) := by
  have h1 : getRate query = parseFloat s := by
    unfold getRate
    rw [hs]
    show parseFloat (if s = "" then DefaultRate else s) = parseFloat s
    rw [if_neg hne]
  refine ⟨h1, ?_⟩
  cases hp : parseFloat s with
  | none => simp [serveRoot, get, h1, hp]
  | some v => cases v <;> simp [serveRoot, get, h1, hp]

/-- Witness for the amended C6 at the concrete query `?rate=Inf`. -/
theorem rateAccept_iff_parse_witness :
    getRate [("rate", "Inf")] = parseFloat "Inf"
      ∧ ((serveRoot "GET" [("rate", "Inf")]).status = 400
          ↔ parseFloat "Inf" = none) :=
  rateAccept_iff_parse [("rate", "Inf")] "Inf" rfl (by decide)

/-- C7: whenever rate resolution produces a (finite) value — in particular
for every rate for which a JSON response is produced — both endpoints emit
the two pipeline arrays, and both arrays have exactly 100 elements. -/
theorem outputArrays_100 (query : List (String × String)) (q : ℚ)
    (hq : getRate query = some (GoFloat.finite q)) :
    serveRoot "GET" query = ⟨200, some "application/json", none,
        Body.json (logisticMap (q : ℝ)) (frequencyTransform (logisticMap (q : ℝ)))⟩
      ∧ serveChart "GET" query = ⟨200, some "text/html", none,
          Body.html (logisticMap (q : ℝ)) (frequencyTransform (logisticMap (q : ℝ))) q⟩
      ∧ (logisticMap (q : ℝ)).length = 100
      ∧ (frequencyTransform (logisticMap (q : ℝ))).length = 100 := by
  refine ⟨by simp [serveRoot, get, hq], by simp [serveChart, getChart, hq], ?_, ?_⟩
  · simpa [Iterations] using logisticMap_length (q : ℝ)
  · rw [frequencyTransform_length, logisticMap_length]
    rfl

/-- Witness for C7 at the empty query (default rate `3.5`). -/
theorem outputArrays_100_witness :
    serveRoot "GET" [] = ⟨200, some "application/json", none,
        Body.json (logisticMap ((7 / 2 : ℚ) : ℝ))
          (frequencyTransform (logisticMap ((7 / 2 : ℚ) : ℝ)))⟩
      ∧ serveChart "GET" [] = ⟨200, some "text/html", none,
          Body.html (logisticMap ((7 / 2 : ℚ) : ℝ))
            (frequencyTransform (logisticMap ((7 / 2 : ℚ) : ℝ))) (7 / 2)⟩
      ∧ (logisticMap ((7 / 2 : ℚ) : ℝ)).length = 100
      ∧ (frequencyTransform (logisticMap ((7 / 2 : ℚ) : ℝ))).length = 100 :=
  outputArrays_100 [] (7 / 2) getRate_nil

end Logmap
